import Mathlib

/-!
Verification of the YTSummarizer backend's token-budget management,
retrieval (RAG) ranking, and cache-eviction layers.

The definitions below are shallow embeddings of the Python functions in
`backend/app/utils/token_management.py`, `archive/rag.py`,
`backend/cache.py`, `backend/app/utils/cache.py` and
`backend/app/core/cache.py`.  Machine text is modelled as Lean `String`
(Python `len` counts code points, as does `String.length`); Python's
unbounded signed integers are modelled as `Int` where subtraction can go
negative, and as `Nat` where the source only ever holds non-negative
counts.  Token counting is embedded as the repository's mandatory
fallback heuristic `len(text) // 4` (`count_tokens_fallback`); the
optional `tiktoken` tokenizer is an external binary resource and is not
part of the embedding.
-/

/-- Token-budget constants from `backend/app/utils/token_management.py`. -/
def MAX_TOTAL_TOKENS : Nat := 1048576

/-- Transcript token ceiling (`MAX_TRANSCRIPT_TOKENS` in the source). -/
def MAX_TRANSCRIPT_TOKENS : Nat := 800000

/-- History token ceiling (`MAX_HISTORY_TOKENS` in the source). -/
def MAX_HISTORY_TOKENS : Nat := 150000

/-- Question token cap (`MAX_QUESTION_TOKENS` in the source). -/
def MAX_QUESTION_TOKENS : Nat := 2000

/-- Embedding of `count_tokens_fallback`: `len(text) // 4` with Python
floor division.  This is also the embedded `count_tokens`, per the
module's fallback contract. -/
def count_tokens (text : String) : Nat :=
  text.length / 4

/-- ASCII whitespace recognised by Python's `str.split()` and the `\s`
class of the `re` module (the inputs in this development are ASCII). -/
def isPySpace (c : Char) : Bool :=
  c == ' ' || c == '\t' || c == '\n' || c == '\r' || c == '\x0b' || c == '\x0c'

/-- Worker for `pySplitWords`: `acc` holds the current word reversed. -/
def splitWordsAux : List Char → List Char → List String
  | acc, [] => if acc.isEmpty then [] else [String.mk acc.reverse]
  | acc, c :: cs =>
    if isPySpace c then
      if acc.isEmpty then splitWordsAux [] cs
      else String.mk acc.reverse :: splitWordsAux [] cs
    else splitWordsAux (c :: acc) cs

/-- Embedding of Python `str.split()` (no argument): split on runs of
whitespace, discarding empty pieces. -/
def pySplitWords (s : String) : List String :=
  splitWordsAux [] s.data

/-- Sentence-final punctuation of the lookbehind in
`re.split(r'(?<=[.!?])\s+', transcript)`. -/
def isSentEnd (c : Char) : Bool :=
  c == '.' || c == '!' || c == '?'

/-- Does the reversed accumulator end (in string order) with `.`, `!` or
`?` — i.e. is its head, as a reversed list, sentence-final punctuation? -/
def headEndsSent : List Char → Bool
  | [] => false
  | p :: _ => isSentEnd p

/-- Worker for `pySplitSentences`.  The `Bool` is true while consuming a
`\s+` separator run; `acc` holds the current piece reversed. -/
def splitSentencesAux : Bool → List Char → List Char → List String
  | _, acc, [] => [String.mk acc.reverse]
  | true, acc, c :: cs =>
    if isPySpace c then splitSentencesAux true acc cs
    else splitSentencesAux false (c :: acc) cs
  | false, acc, c :: cs =>
    if isPySpace c && headEndsSent acc then
      String.mk acc.reverse :: splitSentencesAux true [] cs
    else splitSentencesAux false (c :: acc) cs

/-- Embedding of `re.split(r'(?<=[.!?])\s+', transcript)`: split on each
maximal whitespace run whose immediately preceding character is `.`, `!`
or `?`.  Like `re.split`, a trailing separator yields a trailing empty
piece. -/
def pySplitSentences (s : String) : List String :=
  splitSentencesAux false [] s.data

/-- The greedy sentence-accumulation loop of `truncate_transcript`
(lines 96-102 of `token_management.py`): keep adding sentences while the
running token total stays within `max_tokens`; stop at the first
sentence that would overflow. -/
def truncateKeep (maxTok : Nat) : Nat → List String → List String
  | _, [] => []
  | cur, s :: rest =>
    if cur + count_tokens s ≤ maxTok then
      s :: truncateKeep maxTok (cur + count_tokens s) rest
    else []

/-- Embedding of `truncate_transcript(transcript, max_tokens)`. -/
def truncate_transcript (transcript : String) (maxTok : Nat) : String :=
  if transcript = "" then ""
  else if count_tokens transcript ≤ maxTok then transcript
  else String.intercalate " " (truncateKeep maxTok 0 (pySplitSentences transcript))

/-- A conversation turn `{role, content}` as used by
`manage_history_tokens`. -/
structure Turn where
  role : String
  content : String
  deriving DecidableEq, Repr

/-- The synthetic system turn substituted by `manage_history_tokens`
when no history turn fits the budget (lines 158-165 of the source). -/
def summaryTurn : Turn :=
  ⟨"system", "Previous conversation history was too long and has been summarized. This is a new conversation about the same video."⟩

/-- Total `count_tokens` over the `content` fields of a history. -/
def historyTokens (h : List Turn) : Nat :=
  (h.map (fun m => count_tokens m.content)).sum

/-- The newest-first greedy selection loop of `manage_history_tokens`
(lines 147-155): walk the reversed history, keeping turns while the
cumulative token count fits `avail`, stopping at the first overflow. -/
def keepNewest (avail : Int) : Int → List Turn → List Turn
  | _, [] => []
  | used, m :: rest =>
    if used + (count_tokens m.content : Int) ≤ avail then
      m :: keepNewest avail (used + (count_tokens m.content : Int)) rest
    else []

/-- Embedding of `manage_history_tokens(history, current_question,
max_history_tokens)`.  `available` can go negative (Python ints), hence
`Int`. -/
def manage_history_tokens (history : List Turn) (q : String) (maxHist : Int) :
    List Turn × Int :=
  match history with
  | [] => ([], maxHist)
  | _ :: _ =>
    let qt : Nat := min (count_tokens q) MAX_QUESTION_TOKENS
    let avail : Int := maxHist - (qt : Int)
    let total : Nat := historyTokens history
    if (total : Int) ≤ avail then (history, avail - (total : Int))
    else
      let kept := (keepNewest avail 0 history.reverse).reverse
      match kept with
      | [] => ([summaryTurn], avail - (count_tokens summaryTurn.content : Int))
      | _ :: _ => (kept, avail - (historyTokens kept : Int))

/-- Normalise one Python slice bound: negative indices count from the
end and are clamped at 0; positive ones are clamped at the length. -/
def pySliceNorm (len : Nat) (i : Int) : Nat :=
  if i < 0 then ((len : Int) + i).toNat else min i.toNat len

/-- Embedding of the Python slice `l[a:b]` (as used on lists and 1-d
numpy arrays in the source). -/
def pySlice {α : Type} (l : List α) (a b : Int) : List α :=
  (l.take (pySliceNorm l.length b)).drop (pySliceNorm l.length a)

/-- The `while start < len(words)` loop of `chunk_transcript`
(lines 75-84 of `archive/rag.py`), made total with an iteration budget:
`Option.none` means the budget was exhausted, i.e. the Python loop would
still be running.  `start` is `Int` because Python's
`start + chunk_size - chunk_overlap` can go negative when
`chunk_overlap > start + chunk_size`. -/
def chunkLoop (words : List String) (chunk_size chunk_overlap : Nat) :
    Nat → Int → List String → Option (List String)
  | fuel, start, acc =>
    if start < (words.length : Int) then
      match fuel with
      | 0 => Option.none
      | fuel' + 1 =>
        let e : Int := min (start + (chunk_size : Int)) (words.length : Int)
        chunkLoop words chunk_size chunk_overlap fuel'
          (start + (chunk_size : Int) - (chunk_overlap : Int))
          (acc ++ [String.intercalate " " (pySlice words start e)])
    else some acc

/-- Embedding of `chunk_transcript(transcript, chunk_size,
chunk_overlap)`.  The loop gets `words.length` iterations of budget,
which suffices whenever `chunk_overlap < chunk_size` (proved below), so
`Option.none` signals exactly the non-terminating configurations. -/
def chunk_transcript (transcript : String) (chunk_size chunk_overlap : Nat) :
    Option (List String) :=
  if transcript = "" then some []
  else
    let words := pySplitWords transcript
    if words.length ≤ chunk_size then some [transcript]
    else chunkLoop words chunk_size chunk_overlap words.length 0 []

/-- The Python loop of `chunk_transcript` runs forever from `start`:
no iteration budget makes it finish. -/
def chunkLoopDiverges (words : List String) (chunk_size chunk_overlap : Nat)
    (start : Int) : Prop :=
  ∀ fuel acc, chunkLoop words chunk_size chunk_overlap fuel start acc = Option.none

/-- Comparison of chunk indices by their similarity score, the sort key
of `np.argsort(similarities)`. -/
def simLe (sims : List ℚ) (i j : Nat) : Prop :=
  sims.getD i 0 ≤ sims.getD j 0

instance (sims : List ℚ) : DecidableRel (simLe sims) :=
  fun _ _ => inferInstanceAs (Decidable (_ ≤ _))

instance (sims : List ℚ) : IsTotal Nat (simLe sims) :=
  ⟨fun _ _ => le_total _ _⟩

instance (sims : List ℚ) : IsTrans Nat (simLe sims) :=
  ⟨fun _ _ _ h₁ h₂ => le_trans h₁ h₂⟩

/-- Model of `np.argsort(similarities)`: indices sorted ascending by
score.  Cosine similarities (floating point in the source) are passed in
as exact rationals.  numpy's default introsort degenerates to a stable
insertion sort below 16 elements, so for the short arrays used in the
concrete theorems below a stable ascending sort is the exact
behaviour. -/
def npArgsort (sims : List ℚ) : List Nat :=
  List.insertionSort (simLe sims) (List.range sims.length)

/-- Embedding of the ranking logic of `search_relevant_chunks(question,
chunks, chunk_embeddings, top_k)` (lines 146-150 of `archive/rag.py`):
`top_indices = np.argsort(similarities)[-top_k:][::-1]`, then pair each
index's chunk with its score.  The embedding/similarity computation is
an external ML model; its output vector `sims` is a parameter. -/
def search_relevant_chunks (chunks : List String) (sims : List ℚ) (top_k : Nat) :
    List (String × ℚ) :=
  match chunks with
  | [] => []
  | _ :: _ =>
    let order := npArgsort sims
    let top_indices := (pySlice order (-(top_k : Int)) (order.length : Int)).reverse
    top_indices.map (fun i => (chunks.getD i "", sims.getD i 0))

/-- The search-query construction of `prepare_rag_context`
(lines 189-195 of `archive/rag.py`): the last two history turns'
contents (all of them if the history has at most two turns), then the
question, joined by single spaces. -/
def buildSearchQuery (question : String) (history : List Turn) : String :=
  match history with
  | [] => question
  | _ :: _ =>
    let last_turns :=
      if history.length > 2 then pySlice history (-2) (history.length : Int)
      else history
    String.intercalate " " (last_turns.map (fun m => m.content) ++ [question])

/-- The greedy chunk-assembly loop of `prepare_rag_context`
(lines 204-214): append `"[Relevance: {score}] {chunk}"` while the
running total of the chunks' own token counts fits `maxTok`; the
relevance prefix is not counted.  Scores arrive as the already formatted
`f"{score:.2f}"` strings. -/
def ragGreedy (maxTok : Nat) : Nat → List (String × String) → List String
  | _, [] => []
  | total, (chunk, score) :: rest =>
    if total + count_tokens chunk ≤ maxTok then
      ("[Relevance: " ++ score ++ "] " ++ chunk) ::
        ragGreedy maxTok (total + count_tokens chunk) rest
    else []

/-- The final `total_tokens` counter of the same loop. -/
def ragGreedyTotal (maxTok : Nat) : Nat → List (String × String) → Nat
  | total, [] => total
  | total, (chunk, _) :: rest =>
    if total + count_tokens chunk ≤ maxTok then
      ragGreedyTotal maxTok (total + count_tokens chunk) rest
    else total

/-- Embedding of `prepare_rag_context(transcript, question, history)`,
with the transcript token ceiling as the parameter `maxTok`
(`token_management.MAX_TRANSCRIPT_TOKENS`, 800000, in the source).
`embeddingsOk` models whether `create_embeddings` succeeded, and
`search` is the oracle for the external similarity search: it maps the
search query to the `(chunk, formatted score)` list that
`search_relevant_chunks` returns. -/
def prepare_rag_context (maxTok : Nat) (embeddingsOk : Bool)
    (search : String → List (String × String))
    (transcript question : String) (history : List Turn) : String :=
  if count_tokens transcript ≤ maxTok then transcript
  else if !embeddingsOk then truncate_transcript transcript maxTok
  else
    match search (buildSearchQuery question history) with
    | [] => truncate_transcript transcript maxTok
    | rc :: rcs => String.intercalate "\n\n" (ragGreedy maxTok 0 (rc :: rcs))

/-- A stored cache value as distinguished by `apply_lru_cleanup` in
`backend/cache.py`: a parsed JSON object (`dict`), some other parsed
JSON value (`nonDict`), or a string `json.loads` rejects (`corrupt`).
Dict fields are modelled as string-valued: the cleanup only ever reads
`_cached_at`, which `set_cache` always writes as an ISO timestamp
string (a non-string there would make the Python sort raise `TypeError`
and the outer `except` abort the whole cleanup). -/
inductive Stored where
  | dict (d : List (String × String))
  | nonDict
  | corrupt
  deriving DecidableEq, Repr

/-- The stand-in timestamp `"1970-01-01T00:00:00"` used for entries
without `_cached_at` and for unparseable entries. -/
def epochTs : String := "1970-01-01T00:00:00"

/-- First-match association lookup on string-valued dict fields. -/
def lookupStr : List (String × String) → String → Option String
  | [], _ => Option.none
  | (k, v) :: rest, key => if k = key then some v else lookupStr rest key

/-- The sort-key extraction of `apply_lru_cleanup` (lines 135-147 of
`backend/cache.py`) for one key: `Option.none` on the left means the
redis `GET` returned nothing (the `if value:` test fails and the key is
skipped entirely); a dict's `_cached_at` is used when present, and every
other case gets the epoch stand-in. -/
def entryTs : Option Stored → Option String
  | Option.none => Option.none
  | some (.dict d) =>
    match lookupStr d "_cached_at" with
    | some ts => some ts
    | Option.none => some epochTs
  | some .nonDict => some epochTs
  | some .corrupt => some epochTs

/-- The `key_timestamps` list built by `apply_lru_cleanup`: one
`(key, timestamp)` pair per key whose value is present. -/
def keyTimestamps (st : List (String × Option Stored)) : List (String × String) :=
  st.filterMap (fun e => (entryTs e.2).map (fun ts => (e.1, ts)))

/-- Ordering of `key_timestamps.sort(key=lambda x: x[1])`: by the
timestamp string only, compared as Python compares strings —
lexicographically by code point; Python's sort is stable. -/
def tsLe (a b : String × String) : Prop := a.2.data ≤ b.2.data

instance : DecidableRel tsLe :=
  fun _ _ => inferInstanceAs (Decidable (_ ≤ _))

instance : IsTotal (String × String) tsLe :=
  ⟨fun a b => le_total a.2.data b.2.data⟩

instance : IsTrans (String × String) tsLe :=
  ⟨fun _ _ _ h₁ h₂ => le_trans h₁ h₂⟩

/-- The stably sorted `key_timestamps` list. -/
def sortedKeyTs (st : List (String × Option Stored)) : List (String × String) :=
  List.insertionSort tsLe (keyTimestamps st)

/-- The number of keys the pass removes:
`int(len(key_timestamps) * 0.2)`.  For every feasible length `n`
(far below 2^51) the IEEE-754 product `n * 0.2` truncates to exactly
`n / 5` in integer terms: the double nearest 0.2 exceeds 1/5 by about
1.1e-17 relatively, so the product lies in [n/5, n/5 + n*2^-54) and
truncation yields the floor of n/5. -/
def removeCount (st : List (String × Option Stored)) : Nat :=
  (keyTimestamps st).length / 5

/-- The keys of the first `removeCount` sorted pairs — the keys the pass
deletes. -/
def keysToRemove (st : List (String × Option Stored)) : List String :=
  ((sortedKeyTs st).take (removeCount st)).map Prod.fst

/-- Embedding of `apply_lru_cleanup` from `backend/cache.py`
(lines 119-159): the state after deleting the selected keys.
`app/utils/cache.py` lines 134-191 is the same algorithm except that it
skips a bookkeeping key `"last_cleanup_time"` and re-writes it
afterwards; `app/core/cache.py` (not cited by the claims) is the variant
that sorts by `(last_accessed, access_count)` and removes at least one
key. -/
def apply_lru_cleanup (st : List (String × Option Stored)) :
    List (String × Option Stored) :=
  st.filter (fun e => decide (e.1 ∉ keysToRemove st))

/-- JSON-serializable dict leaf values needed by the `set_cache`
embeddings: strings and integers. -/
inductive PyVal where
  | str (s : String)
  | int (n : Int)
  deriving DecidableEq, Repr

/-- Python `d[k] = v` on an insertion-ordered dict: replace in place,
else append. -/
def dictSet : List (String × PyVal) → String → PyVal → List (String × PyVal)
  | [], k, v => [(k, v)]
  | (k₁, v₁) :: rest, k, v =>
    if k₁ = k then (k, v) :: rest else (k₁, v₁) :: dictSet rest k v

/-- Python `d.get(k)` / `k in d`. -/
def dictGet : List (String × PyVal) → String → Option PyVal
  | [], _ => Option.none
  | (k₁, v₁) :: rest, k => if k₁ = k then some v₁ else dictGet rest k

/-- Embedding of Python `str.startswith`. -/
def strStartsWith (s p : String) : Bool :=
  p.data.isPrefixOf s.data

/-- Embedding of `set_cache(key, value)` from `backend/cache.py`
(lines 53-85) for a dict-valued `value`.  In Python the metadata key is
injected into the caller's own dict object before serialization; the
returned dict is therefore exactly what the caller's variable refers to
after the call.  `redisInit` models `redis_client` being initialized
(the early `return False` takes the dict untouched), `redisOk` models
the redis `SET` not raising, and `now` is
`datetime.now(timezone.utc).isoformat()`. -/
def set_cache_backend (redisInit redisOk : Bool) (now key : String)
    (value : List (String × PyVal)) : Bool × List (String × PyVal) :=
  if !redisInit then (false, value)
  else (redisOk, dictSet value "_cached_at" (PyVal.str now))

/-- Embedding of `set_cache(key, value, expiry_seconds)` from
`backend/app/utils/cache.py` (lines 50-100) for a dict-valued `value`:
additionally injects `_cache_key`, and for `transcript:*` keys whose
dict has a `transcript` field also `_transcript_length`.  A
non-string `transcript` value makes `len(...)` raise `TypeError`, which
the `except` turns into a `False` return with the first two metadata
keys already injected. -/
def set_cache_utils (redisInit redisOk : Bool) (now key : String)
    (value : List (String × PyVal)) : Bool × List (String × PyVal) :=
  if !redisInit then (false, value)
  else
    let v1 := dictSet value "_cached_at" (PyVal.str now)
    let v2 := dictSet v1 "_cache_key" (PyVal.str key)
    if strStartsWith key "transcript:" then
      match dictGet v2 "transcript" with
      | some (PyVal.str s) => (redisOk, dictSet v2 "_transcript_length" (PyVal.int (s.length : Int)))
      | some (PyVal.int _) => (false, v2)
      | Option.none => (redisOk, v2)
    else (redisOk, v2)

theorem historyTokens_cons (m : Turn) (l : List Turn) :
    historyTokens (m :: l) = count_tokens m.content + historyTokens l := by
  simp [historyTokens]

theorem historyTokens_reverse (l : List Turn) :
    historyTokens l.reverse = historyTokens l := by
  simp [historyTokens, List.map_reverse, List.sum_reverse]

theorem keepNewest_sum_le (avail : Int) :
    ∀ (l : List Turn) (used : Int), keepNewest avail used l ≠ [] →
      used + (historyTokens (keepNewest avail used l) : Int) ≤ avail := by
  intro l
  induction l with
  | nil => intro used h; simp [keepNewest] at h
  | cons m rest ih =>
    intro used h
    by_cases hc : used + (count_tokens m.content : Int) ≤ avail
    · simp only [keepNewest, if_pos hc]
      rcases hrec : keepNewest avail (used + (count_tokens m.content : Int)) rest with _ | ⟨t, ts⟩
      · rw [show historyTokens [m] = count_tokens m.content from by simp [historyTokens]]
        exact hc
      · have htail := ih (used + (count_tokens m.content : Int)) (by rw [hrec]; simp)
        rw [hrec] at htail
        rw [historyTokens_cons]
        push_cast at htail ⊢
        omega
    · simp only [keepNewest, if_neg hc] at h
      exact absurd rfl h

theorem ragGreedyTotal_le (maxTok : Nat) (rcs : List (String × String)) :
    ∀ total, total ≤ maxTok → ragGreedyTotal maxTok total rcs ≤ maxTok := by
  induction rcs with
  | nil => intro total h; simpa [ragGreedyTotal] using h
  | cons p rest ih =>
    intro total h
    obtain ⟨c, s⟩ := p
    by_cases hc : total + count_tokens c ≤ maxTok
    · simp only [ragGreedyTotal, if_pos hc]
      exact ih _ hc
    · simp only [ragGreedyTotal, if_neg hc]
      exact h

theorem chunkLoop_none_of_le (words : List String) (size overlap : Nat)
    (hso : size ≤ overlap) :
    ∀ (fuel : Nat) (start : Int), start < (words.length : Int) →
      ∀ acc, chunkLoop words size overlap fuel start acc = Option.none := by
  intro fuel
  induction fuel with
  | zero =>
    intro start hs acc
    rw [chunkLoop]
    simp [hs]
  | succ n ih =>
    intro start hs acc
    rw [chunkLoop]
    simp only [if_pos hs]
    exact ih _ (by omega) _

theorem chunkLoop_isSome (words : List String) (size overlap : Nat) (h : overlap < size) :
    ∀ (fuel : Nat) (start : Int) (acc : List String),
      (words.length : Int) - start ≤ (fuel : Int) →
      (chunkLoop words size overlap fuel start acc).isSome = true := by
  intro fuel
  induction fuel with
  | zero =>
    intro start acc hle
    rw [chunkLoop]
    have hns : ¬ start < (words.length : Int) := by push_cast at hle; omega
    simp [hns]
  | succ n ih =>
    intro start acc hle
    rw [chunkLoop]
    by_cases hs : start < (words.length : Int)
    · simp only [if_pos hs]
      exact ih _ _ (by push_cast at hle ⊢; omega)
    · simp [hs]

theorem dictGet_dictSet_self (d : List (String × PyVal)) (k : String) (v : PyVal) :
    dictGet (dictSet d k v) k = some v := by
  induction d with
  | nil => simp [dictSet, dictGet]
  | cons p rest ih =>
    obtain ⟨k₁, v₁⟩ := p
    by_cases hk : k₁ = k
    · simp [dictSet, dictGet, hk]
    · simp [dictSet, dictGet, hk, ih]

theorem dictGet_dictSet_ne (d : List (String × PyVal)) (k k₂ : String) (v : PyVal)
    (h : k ≠ k₂) :
    dictGet (dictSet d k v) k₂ = dictGet d k₂ := by
  induction d with
  | nil => simp [dictSet, dictGet, h]
  | cons p rest ih =>
    obtain ⟨k₁, v₁⟩ := p
    by_cases hk : k₁ = k
    · subst hk
      simp [dictSet, dictGet, h]
    · simp [dictSet, dictGet, hk, ih]

/-- C1 counterexample: `prepare_rag_context` can return a string whose
token count exceeds the transcript token ceiling, because the greedy
loop counts only the chunks' own tokens, not the `"[Relevance: …] "`
prefixes it prepends nor the `"\n\n"` separators it joins with.  Here
the ceiling is 4, the single selected chunk is exactly 4 tokens, and
the returned decorated string is 8 tokens. -/
theorem rag_context_exceeds_ceiling :
    ¬ (count_tokens (prepare_rag_context 4 true
        (fun _ => [("cccccccccccccccc", "0.99")]) "aaaaaaaaaaaaaaaaaaaa" "" []) ≤ 4) := by
  decide

/-- C1 (amended): the running total that `prepare_rag_context`'s greedy
loop checks against the ceiling — the sum of the selected chunks' own
token counts — never exceeds `max_transcript_tokens`; the returned
string may exceed the ceiling by the uncounted relevance prefixes and
separators. -/
theorem rag_running_total_within_ceiling (maxTok : Nat) (rcs : List (String × String)) :
    ragGreedyTotal maxTok 0 rcs ≤ maxTok :=
  ragGreedyTotal_le maxTok rcs 0 (Nat.zero_le _)

/-- C2 counterexample: with a one-turn history, an empty question and
`max_history_tokens = 0`, no turn fits, so `manage_history_tokens`
substitutes the synthetic system turn — whose 29 tokens are never
checked against the budget, so the claimed bound fails. -/
theorem manage_history_budget_violated :
    ¬ ((historyTokens (manage_history_tokens [⟨"user", "abcd"⟩] "" 0).1 : Int) +
        ((min (count_tokens "") MAX_QUESTION_TOKENS : Nat) : Int) ≤ 0) := by
  decide

/-- C2 (amended): the history budget bound
`sum of kept turn tokens + min(question tokens, max_question_tokens)
≤ max_history_tokens` holds whenever the history is non-empty and the
returned history is not the synthetic substitute turn (i.e. the all-fits
or greedy-suffix branch was taken); it can fail when the history is
empty (the capped question tokens may alone exceed the budget) and when
the synthetic turn is substituted. -/
theorem manage_history_budget (history : List Turn) (q : String) (maxHist : Int)
    (hne : history ≠ [])
    (hsub : (manage_history_tokens history q maxHist).1 ≠ [summaryTurn]) :
    (historyTokens (manage_history_tokens history q maxHist).1 : Int) +
      ((min (count_tokens q) MAX_QUESTION_TOKENS : Nat) : Int) ≤ maxHist := by
  match history, hne with
  | m :: rest, _ =>
    simp only [manage_history_tokens] at hsub ⊢
    by_cases hfit : (historyTokens (m :: rest) : Int) ≤
        maxHist - ((min (count_tokens q) MAX_QUESTION_TOKENS : Nat) : Int)
    · simp only [if_pos hfit] at hsub ⊢
      omega
    · simp only [if_neg hfit] at hsub ⊢
      rcases hkept : (keepNewest (maxHist - ((min (count_tokens q) MAX_QUESTION_TOKENS : Nat) : Int))
          0 (m :: rest).reverse).reverse with _ | ⟨t, ts⟩
      · simp only [hkept] at hsub
        exact absurd rfl hsub
      · simp only [hkept]
        have hrevne : keepNewest (maxHist - ((min (count_tokens q) MAX_QUESTION_TOKENS : Nat) : Int))
            0 (m :: rest).reverse ≠ [] := by
          intro h0
          rw [h0] at hkept
          simp at hkept
        have hle := keepNewest_sum_le _ _ _ hrevne
        have hht : historyTokens (t :: ts) =
            historyTokens (keepNewest (maxHist -
              ((min (count_tokens q) MAX_QUESTION_TOKENS : Nat) : Int)) 0 (m :: rest).reverse) := by
          rw [← hkept, historyTokens_reverse]
        rw [hht]
        omega

/-- C2 amended witness at a concrete in-budget input. -/
theorem manage_history_budget_witness :
    (historyTokens (manage_history_tokens [⟨"user", "abcdefgh"⟩] "" 100).1 : Int) +
      ((min (count_tokens "") MAX_QUESTION_TOKENS : Nat) : Int) ≤ 100 :=
  manage_history_budget [⟨"user", "abcdefgh"⟩] "" 100 (by decide) (by decide)

/-- C5 (code bug): `truncate_transcript` joins the greedily kept
sentences with single spaces that its running token total never
counted, so the result can exceed the budget: six one-token sentences
with budget 5 keep five sentences, and the rejoined 24-character string
is 6 tokens.  This contradicts the function's stated purpose and the
repository's own test assertion `truncated_tokens <=
MAX_TRANSCRIPT_TOKENS`. -/
theorem truncate_transcript_exceeds_budget :
    count_tokens "abc. abc. abc. abc. abc. abc." = 7 ∧
    count_tokens (truncate_transcript "abc. abc. abc. abc. abc. abc." 5) = 6 := by
  decide

/-- C6 counterexample: the spec's example output is not what
`chunk_transcript` returns — its own window rule generates a third
window at `start = 4 < 6`. -/
theorem chunk_example_not_two_chunks :
    chunk_transcript "w1 w2 w3 w4 w5 w6" 4 2 ≠ some ["w1 w2 w3 w4", "w3 w4 w5 w6"] := by
  decide

/-- C6 (amended): `chunk_transcript("w1 w2 w3 w4 w5 w6", 4, 2)` returns
three chunks — the window rule `start_next = start + 4 - 2`, stopping
only once `start ≥ 6`, also emits the trailing window `"w5 w6"` at
`start = 4`. -/
theorem chunk_example_actual :
    chunk_transcript "w1 w2 w3 w4 w5 w6" 4 2 =
      some ["w1 w2 w3 w4", "w3 w4 w5 w6", "w5 w6"] := by
  decide

/-- C7 (confirmed): truncation is the identity on transcripts already
within budget, including `max_tokens = 0` with an empty transcript
(the empty transcript returns `""`, which is the transcript itself). -/
theorem truncate_transcript_noop (t : String) (N : Nat) (h : count_tokens t ≤ N) :
    truncate_transcript t N = t := by
  unfold truncate_transcript
  by_cases h0 : t = ""
  · rw [if_pos h0, h0]
  · rw [if_neg h0, if_pos h]

/-- C7 witness at a concrete input (4 characters = 1 token ≤ 1). -/
theorem truncate_transcript_noop_witness :
    truncate_transcript "abcd" 1 = "abcd" :=
  truncate_transcript_noop "abcd" 1 (by decide)

/-- C9 counterexample: `chunk_transcript` has no guard against
`chunk_overlap ≥ chunk_size`: at that configuration (here 1 and 1, on a
three-word transcript) the window start never advances, the Python loop
never terminates — no iteration budget completes it — and the
fuel-indexed embedding reports `Option.none`. -/
theorem chunk_transcript_unguarded :
    chunk_transcript "a b c" 1 1 = Option.none ∧
    chunkLoopDiverges (pySplitWords "a b c") 1 1 0 := by
  refine ⟨by decide, ?_⟩
  intro fuel acc
  exact chunkLoop_none_of_le _ 1 1 (le_refl 1) fuel 0 (by decide) acc

/-- C9 (amended): `chunk_transcript` terminates for every transcript
whenever `chunk_overlap < chunk_size` (the start strictly advances each
iteration), but the implementation does not guard against
`chunk_overlap ≥ chunk_size`, where the loop diverges whenever the word
count exceeds `chunk_size`. -/
theorem chunk_transcript_terminates (t : String) (size overlap : Nat)
    (h : overlap < size) :
    (chunk_transcript t size overlap).isSome = true := by
  unfold chunk_transcript
  by_cases h0 : t = ""
  · simp [h0]
  · simp only [if_neg h0]
    by_cases hw : (pySplitWords t).length ≤ size
    · simp [hw]
    · simp only [if_neg hw]
      exact chunkLoop_isSome _ _ _ h _ 0 [] (by omega)

/-- C9 amended witness at the spec's example configuration. -/
theorem chunk_transcript_terminates_witness :
    (chunk_transcript "w1 w2 w3 w4 w5 w6" 4 2).isSome = true :=
  chunk_transcript_terminates "w1 w2 w3 w4 w5 w6" 4 2 (by decide)

/-- C10 counterexample: when the redis client is not initialized,
`set_cache` returns `False` — a failed set — without ever touching the
caller's dict, so it is not true that the metadata keys are present
after every successful or failed set. -/
theorem set_cache_uninit_no_mutation :
    set_cache_backend false true "2024-01-01T00:00:00" "k" [("x", PyVal.str "y")] =
      (false, [("x", PyVal.str "y")]) ∧
    dictGet [("x", PyVal.str "y")] "_cached_at" = Option.none := by
  decide

/-- C10 (amended): once the redis client is initialized, `set_cache`
mutates the caller's dict in place before serializing, whether the
write then succeeds or fails: the backend variant injects `_cached_at`,
the app/utils variant also `_cache_key`, and `_transcript_length` for a
`transcript:*` key whose dict has a string `transcript` field; with an
uninitialized client the dict is returned untouched. -/
theorem set_cache_mutates_in_place (redisOk : Bool) (now key : String)
    (d : List (String × PyVal)) :
    dictGet (set_cache_backend true redisOk now key d).2 "_cached_at" =
      some (PyVal.str now) ∧
    dictGet (set_cache_utils true redisOk now key d).2 "_cached_at" =
      some (PyVal.str now) ∧
    dictGet (set_cache_utils true redisOk now key d).2 "_cache_key" =
      some (PyVal.str key) ∧
    (∀ s, strStartsWith key "transcript:" = true →
      dictGet d "transcript" = some (PyVal.str s) →
      dictGet (set_cache_utils true redisOk now key d).2 "_transcript_length" =
        some (PyVal.int (s.length : Int))) := by
  have htr : dictGet (dictSet (dictSet d "_cached_at" (PyVal.str now)) "_cache_key"
      (PyVal.str key)) "transcript" = dictGet d "transcript" := by
    rw [dictGet_dictSet_ne _ _ _ _ (by decide), dictGet_dictSet_ne _ _ _ _ (by decide)]
  refine ⟨?_, ?_, ?_, ?_⟩
  · simp only [set_cache_backend, Bool.not_true, Bool.false_eq_true, if_false]
    exact dictGet_dictSet_self _ _ _
  · simp only [set_cache_utils, Bool.not_true, Bool.false_eq_true, if_false]
    by_cases hs : strStartsWith key "transcript:"
    · simp only [if_pos hs]
      rcases hd : dictGet d "transcript" with _ | v
      · rw [htr.trans hd]
        rw [dictGet_dictSet_ne _ _ _ _ (by decide)]
        exact dictGet_dictSet_self _ _ _
      · rcases v with s | n
        · rw [htr.trans hd]
          rw [dictGet_dictSet_ne _ _ _ _ (by decide),
            dictGet_dictSet_ne _ _ _ _ (by decide)]
          exact dictGet_dictSet_self _ _ _
        · rw [htr.trans hd]
          rw [dictGet_dictSet_ne _ _ _ _ (by decide)]
          exact dictGet_dictSet_self _ _ _
    · simp only [if_neg hs]
      rw [dictGet_dictSet_ne _ _ _ _ (by decide)]
      exact dictGet_dictSet_self _ _ _
  · simp only [set_cache_utils, Bool.not_true, Bool.false_eq_true, if_false]
    by_cases hs : strStartsWith key "transcript:"
    · simp only [if_pos hs]
      rcases hd : dictGet d "transcript" with _ | v
      · rw [htr.trans hd]
        exact dictGet_dictSet_self _ _ _
      · rcases v with s | n
        · rw [htr.trans hd]
          rw [dictGet_dictSet_ne _ _ _ _ (by decide)]
          exact dictGet_dictSet_self _ _ _
        · rw [htr.trans hd]
          exact dictGet_dictSet_self _ _ _
    · simp only [if_neg hs]
      exact dictGet_dictSet_self _ _ _
  · intro s hs hd
    simp only [set_cache_utils, Bool.not_true, Bool.false_eq_true, if_false, if_pos hs]
    rw [htr.trans hd]
    exact dictGet_dictSet_self _ _ _

/-- C10 amended witness: a concrete transcript entry gets all three
metadata keys. -/
theorem set_cache_mutates_in_place_witness :
    dictGet (set_cache_utils true true "T" "transcript:v"
      [("transcript", PyVal.str "hello")]).2 "_transcript_length" =
      some (PyVal.int 5) :=
  (set_cache_mutates_in_place true "T" "transcript:v"
    [("transcript", PyVal.str "hello")]).2.2.2 "hello" (by decide) (by decide)

theorem mem_keys_eq {α β : Type} [DecidableEq α] {l : List (α × β)}
    (h : (l.map Prod.fst).Nodup) {a b : α × β}
    (ha : a ∈ l) (hb : b ∈ l) (hk : a.1 = b.1) : a = b := by
  induction l with
  | nil => cases ha
  | cons e rest ih =>
    rw [List.map_cons, List.nodup_cons] at h
    rcases List.mem_cons.mp ha with ha1 | ha2
    · rcases List.mem_cons.mp hb with hb1 | hb2
      · rw [ha1, hb1]
      · exfalso
        apply h.1
        have hbm : b.1 ∈ rest.map Prod.fst := List.mem_map.mpr ⟨b, hb2, rfl⟩
        rw [ha1] at hk
        rw [hk]
        exact hbm
    · rcases List.mem_cons.mp hb with hb1 | hb2
      · exfalso
        apply h.1
        have ham : a.1 ∈ rest.map Prod.fst := List.mem_map.mpr ⟨a, ha2, rfl⟩
        rw [hb1] at hk
        rw [← hk]
        exact ham
      · exact ih h.2 ha2 hb2

theorem keyTimestamps_keys_sublist (st : List (String × Option Stored)) :
    ((keyTimestamps st).map Prod.fst).Sublist (st.map Prod.fst) := by
  induction st with
  | nil => simp [keyTimestamps]
  | cons e rest ih =>
    simp only [keyTimestamps, List.filterMap_cons, List.map_cons] at ih ⊢
    rcases hts : entryTs e.2 with _ | ts
    · simp only [hts, Option.map_none']
      exact List.Sublist.cons _ ih
    · simp only [hts, Option.map_some', List.map_cons]
      exact List.Sublist.cons₂ _ ih

theorem sortedKeyTs_perm (st : List (String × Option Stored)) :
    (sortedKeyTs st).Perm (keyTimestamps st) :=
  List.perm_insertionSort _ _

theorem keyTimestamps_keys_nodup (st : List (String × Option Stored))
    (h : (st.map Prod.fst).Nodup) : ((keyTimestamps st).map Prod.fst).Nodup :=
  List.Nodup.sublist (keyTimestamps_keys_sublist st) h

theorem keysToRemove_nodup (st : List (String × Option Stored))
    (h : (st.map Prod.fst).Nodup) : (keysToRemove st).Nodup := by
  unfold keysToRemove
  rw [List.map_take]
  apply List.Nodup.sublist (List.take_sublist _ _)
  have hperm : ((sortedKeyTs st).map Prod.fst).Perm ((keyTimestamps st).map Prod.fst) :=
    (sortedKeyTs_perm st).map _
  exact hperm.nodup_iff.mpr (keyTimestamps_keys_nodup st h)

theorem keysToRemove_subset (st : List (String × Option Stored)) :
    keysToRemove st ⊆ st.map Prod.fst := by
  intro x hx
  unfold keysToRemove at hx
  rw [List.map_take] at hx
  have h1 : x ∈ (sortedKeyTs st).map Prod.fst := (List.take_sublist _ _).subset hx
  have h2 : x ∈ (keyTimestamps st).map Prod.fst :=
    ((sortedKeyTs_perm st).map Prod.fst).subset h1
  exact (keyTimestamps_keys_sublist st).subset h2

theorem keysToRemove_length (st : List (String × Option Stored)) :
    (keysToRemove st).length = removeCount st := by
  unfold keysToRemove
  rw [List.length_map, List.length_take, (sortedKeyTs_perm st).length_eq]
  exact Nat.min_eq_left (Nat.div_le_self _ _)

theorem countP_mem_keys {α β : Type} [DecidableEq α] (l : List (α × β)) (R : List α)
    (hnd : (l.map Prod.fst).Nodup) (hR : R.Nodup) (hsub : R ⊆ l.map Prod.fst) :
    List.countP (fun e => decide (e.1 ∈ R)) l = R.length := by
  have h1 : List.countP (fun x => decide (x ∈ R)) (l.map Prod.fst) =
      List.countP (fun e => decide (e.1 ∈ R)) l := List.countP_map _ _ _
  rw [← h1, List.countP_eq_length_filter]
  have hfil_nodup : ((l.map Prod.fst).filter (fun x => decide (x ∈ R))).Nodup :=
    hnd.filter _
  have hfs : ((l.map Prod.fst).filter (fun x => decide (x ∈ R))) ⊆ R := by
    intro x hx
    exact of_decide_eq_true (List.mem_filter.mp hx).2
  have hsr : R ⊆ (l.map Prod.fst).filter (fun x => decide (x ∈ R)) := by
    intro x hx
    exact List.mem_filter.mpr ⟨hsub hx, decide_eq_true hx⟩
  exact ((hfil_nodup.subperm hfs).antisymm (hR.subperm hsr)).length_eq

/-- C3 counterexample: a non-empty cache (one entry) on which the
eviction pass removes nothing — `int(1 * 0.2) = 0` keys are deleted, not
the claimed `max(1, floor(0.2*1)) = 1`.  Neither cited variant has a
one-key minimum (only `app/core/cache.py` does). -/
theorem lru_cleanup_removes_nothing_on_small_cache :
    apply_lru_cleanup [("k", some (Stored.dict [("_cached_at", "2020-01-01T00:00:00")]))] =
      [("k", some (Stored.dict [("_cached_at", "2020-01-01T00:00:00")]))] := by
  decide

/-- C3 (amended): the eviction pass of `backend/cache.py` (and the
identical slice in `backend/app/utils/cache.py`) removes exactly
`floor(0.2 * M)` keys, where `M` counts the enumerated entries — those
whose value is present — with no one-key minimum; in particular it
removes nothing when `M ≤ 4`. -/
theorem lru_cleanup_removes_fifth (st : List (String × Option Stored))
    (hnd : (st.map Prod.fst).Nodup) :
    (apply_lru_cleanup st).length + removeCount st = st.length := by
  have hperm := List.filter_append_perm (fun e => decide (e.1 ∈ keysToRemove st)) st
  have hlen := hperm.length_eq
  rw [List.length_append] at hlen
  have hc : (st.filter (fun e => decide (e.1 ∈ keysToRemove st))).length = removeCount st := by
    rw [← List.countP_eq_length_filter,
      countP_mem_keys st _ hnd (keysToRemove_nodup st hnd) (keysToRemove_subset st)]
    exact keysToRemove_length st
  have hfe : apply_lru_cleanup st =
      st.filter (fun e => !(decide (e.1 ∈ keysToRemove st))) := by
    unfold apply_lru_cleanup
    congr 1
    funext e
    simp [decide_not]
  rw [hfe]
  omega

/-- C3 amended witness: a five-entry cache loses exactly one key. -/
theorem lru_cleanup_removes_fifth_witness :
    (apply_lru_cleanup
      [("b", some (Stored.dict [("_cached_at", "2001-01-01T00:00:00")])),
       ("c", some (Stored.dict [("_cached_at", "2002-01-01T00:00:00")])),
       ("d", some (Stored.dict [("_cached_at", "2003-01-01T00:00:00")])),
       ("e", some (Stored.dict [("_cached_at", "2004-01-01T00:00:00")])),
       ("f", some (Stored.dict [("_cached_at", "2005-01-01T00:00:00")]))]).length +
      removeCount
      [("b", some (Stored.dict [("_cached_at", "2001-01-01T00:00:00")])),
       ("c", some (Stored.dict [("_cached_at", "2002-01-01T00:00:00")])),
       ("d", some (Stored.dict [("_cached_at", "2003-01-01T00:00:00")])),
       ("e", some (Stored.dict [("_cached_at", "2004-01-01T00:00:00")])),
       ("f", some (Stored.dict [("_cached_at", "2005-01-01T00:00:00")]))] =
      ([("b", some (Stored.dict [("_cached_at", "2001-01-01T00:00:00")])),
        ("c", some (Stored.dict [("_cached_at", "2002-01-01T00:00:00")])),
        ("d", some (Stored.dict [("_cached_at", "2003-01-01T00:00:00")])),
        ("e", some (Stored.dict [("_cached_at", "2004-01-01T00:00:00")])),
        ("f", some (Stored.dict [("_cached_at", "2005-01-01T00:00:00")]))] :
        List (String × Option Stored)).length :=
  lru_cleanup_removes_fifth _ (by decide)

/-- C4 counterexample: in the cited `backend/cache.py` eviction, an
entry whose stored value is absent is skipped entirely and never
removed, and `_last_accessed` is ignored: with five timestamped entries
and one absent-value entry `"a"`, the pass removes `"b"` — the entry
with the oldest `_cached_at` — even though `"b"` carries the newest
`_last_accessed` and the claim says `"a"` must be removed first. -/
theorem lru_cleanup_ignores_claimed_order :
    apply_lru_cleanup
      [("a", (Option.none : Option Stored)),
       ("b", some (Stored.dict
         [("_cached_at", "2001-01-01T00:00:00"), ("_last_accessed", "2030-01-01T00:00:00")])),
       ("c", some (Stored.dict [("_cached_at", "2002-01-01T00:00:00")])),
       ("d", some (Stored.dict [("_cached_at", "2003-01-01T00:00:00")])),
       ("e", some (Stored.dict [("_cached_at", "2004-01-01T00:00:00")])),
       ("f", some (Stored.dict [("_cached_at", "2005-01-01T00:00:00")]))] =
      [("a", (Option.none : Option Stored)),
       ("c", some (Stored.dict [("_cached_at", "2002-01-01T00:00:00")])),
       ("d", some (Stored.dict [("_cached_at", "2003-01-01T00:00:00")])),
       ("e", some (Stored.dict [("_cached_at", "2004-01-01T00:00:00")])),
       ("f", some (Stored.dict [("_cached_at", "2005-01-01T00:00:00")]))] := by
  decide

/-- C4 (amended): in the cited `backend/cache.py` eviction the removed
keys are the first `floor(0.2*M)` after a stable ascending sort by the
`_cached_at` string alone (with the epoch stand-in for entries lacking
it, non-dict entries, and unparseable entries); entries whose stored
value is absent are skipped by the enumeration and therefore always
survive, and `_last_accessed`/`_access_count` play no role. -/
theorem lru_cleanup_removal_order (st : List (String × Option Stored))
    (hnd : (st.map Prod.fst).Nodup) :
    (∀ kk, (kk, (Option.none : Option Stored)) ∈ st →
        (kk, (Option.none : Option Stored)) ∈ apply_lru_cleanup st) ∧
    (∀ p ∈ (sortedKeyTs st).take (removeCount st),
      ∀ q ∈ (sortedKeyTs st).drop (removeCount st), tsLe p q) := by
  constructor
  · intro kk hkk
    unfold apply_lru_cleanup
    refine List.mem_filter.mpr ⟨hkk, ?_⟩
    rw [decide_eq_true_iff]
    intro hmem
    unfold keysToRemove at hmem
    obtain ⟨pair, hpair, hfst⟩ := List.mem_map.mp hmem
    have hpair2 : pair ∈ keyTimestamps st :=
      (sortedKeyTs_perm st).subset ((List.take_sublist _ _).subset hpair)
    obtain ⟨e, he, hfe⟩ := List.mem_filterMap.mp hpair2
    rcases hts : entryTs e.2 with _ | ts
    · rw [hts] at hfe
      simp at hfe
    · rw [hts] at hfe
      simp only [Option.map_some'] at hfe
      have hfe2 : (e.1, ts) = pair := Option.some.inj hfe
      have hkey : e.1 = kk := (congrArg Prod.fst hfe2).trans hfst
      have heq : e = (kk, (Option.none : Option Stored)) :=
        mem_keys_eq hnd he hkk (by rw [hkey])
      rw [heq] at hts
      simp [entryTs] at hts
  · have hsorted : List.Pairwise tsLe (sortedKeyTs st) := List.sorted_insertionSort _ _
    have hPW : List.Pairwise tsLe
        ((sortedKeyTs st).take (removeCount st) ++
          (sortedKeyTs st).drop (removeCount st)) := by
      rw [List.take_append_drop]
      exact hsorted
    exact fun p hp q hq => (List.pairwise_append.mp hPW).2.2 p hp q hq

/-- C4 amended witness: in the six-entry state of the counterexample the
absent-value entry `"a"` survives the eviction pass. -/
theorem lru_cleanup_removal_order_witness :
    ("a", (Option.none : Option Stored)) ∈ apply_lru_cleanup
      [("a", (Option.none : Option Stored)),
       ("b", some (Stored.dict
         [("_cached_at", "2001-01-01T00:00:00"), ("_last_accessed", "2030-01-01T00:00:00")])),
       ("c", some (Stored.dict [("_cached_at", "2002-01-01T00:00:00")])),
       ("d", some (Stored.dict [("_cached_at", "2003-01-01T00:00:00")])),
       ("e", some (Stored.dict [("_cached_at", "2004-01-01T00:00:00")])),
       ("f", some (Stored.dict [("_cached_at", "2005-01-01T00:00:00")]))] :=
  (lru_cleanup_removal_order _ (by decide)).1 "a" (by decide)

/-- C8 counterexample: ties are returned in reversed original order, not
original order — `np.argsort` sorts ascending (stably) and the trailing
slice is then reversed, so two equally similar chunks come back with
the later chunk first. -/
theorem search_ties_reversed :
    search_relevant_chunks ["a", "b"] [1, 1] 5 = [("b", (1 : ℚ)), ("a", 1)] ∧
    search_relevant_chunks ["a", "b"] [1, 1] 5 ≠ [("a", (1 : ℚ)), ("b", 1)] := by
  decide

/-- C8 (amended): `search_relevant_chunks` returns pairs sorted in
descending order of similarity, and `top_k ≥ len(chunks)` returns every
chunk; but ties are broken by LATER original chunk position first (the
ascending stable argsort is sliced and then reversed). -/
theorem search_relevant_chunks_ranking (chunks : List String) (sims : List ℚ) (k : Nat) :
    List.Sorted (fun a b : ℚ => b ≤ a)
      ((search_relevant_chunks chunks sims k).map Prod.snd) ∧
    (sims.length = chunks.length → chunks.length ≤ k →
      ∀ c ∈ chunks, c ∈ (search_relevant_chunks chunks sims k).map Prod.fst) := by
  have hlenord : (npArgsort sims).length = sims.length := by
    unfold npArgsort
    rw [(List.perm_insertionSort _ _).length_eq, List.length_range]
  constructor
  · cases chunks with
    | nil => simp [search_relevant_chunks]
    | cons c0 cs =>
      simp only [search_relevant_chunks, List.map_map]
      show List.Pairwise _ _
      rw [List.pairwise_map, List.pairwise_reverse]
      have hsorted : List.Pairwise (simLe sims) (npArgsort sims) :=
        List.sorted_insertionSort _ _
      have hsub : (pySlice (npArgsort sims) (-(k : Int))
          ((npArgsort sims).length : Int)).Sublist (npArgsort sims) := by
        unfold pySlice
        exact (List.drop_sublist _ _).trans (List.take_sublist _ _)
      exact List.Pairwise.sublist hsub hsorted
  · intro hlen hk c hc
    cases chunks with
    | nil => cases hc
    | cons c0 cs =>
      have hkpos : 0 < k := lt_of_lt_of_le (by simp) hk
      have hslice : pySlice (npArgsort sims) (-(k : Int))
          ((npArgsort sims).length : Int) = npArgsort sims := by
        unfold pySlice pySliceNorm
        have h1 : (-(k : Int)) < 0 := by omega
        rw [if_pos h1]
        have h2 : ¬ (((npArgsort sims).length : Nat) : Int) < 0 := by omega
        rw [if_neg h2]
        have h3 : (((npArgsort sims).length : Int) + -(k : Int)).toNat = 0 := by
          rw [hlenord]
          have hlk : (sims.length : Int) ≤ (k : Int) := by
            rw [hlen]
            exact_mod_cast hk
          omega
        rw [h3]
        have h4 : min (((npArgsort sims).length : Int)).toNat (npArgsort sims).length =
            (npArgsort sims).length := by simp
        rw [h4, List.take_length, List.drop_zero]
      simp only [search_relevant_chunks, List.map_map, hslice]
      obtain ⟨⟨i, hi⟩, hgi⟩ := List.mem_iff_get.mp hc
      have hir : i ∈ List.range sims.length := List.mem_range.mpr (by rw [hlen]; exact hi)
      have hio : i ∈ npArgsort sims := by
        unfold npArgsort
        exact (List.perm_insertionSort _ _).mem_iff.mpr hir
      refine List.mem_map.mpr ⟨i, List.mem_reverse.mpr hio, ?_⟩
      show (c0 :: cs).getD i "" = c
      rw [List.getD_eq_getElem _ _ hi]
      exact hgi

/-- C8 amended witness: with `top_k = 5 ≥ 2` chunks, every chunk is in
the result. -/
theorem search_relevant_chunks_ranking_witness :
    "a" ∈ (search_relevant_chunks ["a", "b"] [(2 : ℚ), 1] 5).map Prod.fst :=
  (search_relevant_chunks_ranking ["a", "b"] [2, 1] 5).2 (by decide) (by decide)
    "a" (by decide)
